import Mathlib

/-!
Verification development for the halide register VM repository.

The definitions below are shallow embeddings of the Rust source:
  - the instruction model and its byte encoding (src/vm/src/lib.rs, mod
    opcode; the divergent byte-splitting of src/opcodes/src/lib.rs is
    embedded separately),
  - the execution engine (src/vm/src/lib.rs, impl VM),
  - the textual assembler (src/vm/src/lib.rs mod parsing, identical to
    src/assembler/src/lib.rs),
  - the expression compiler (src/compiler/src/lib.rs and parser.rs).

Machine integers are modelled as Nat / Int with explicit reductions where
the source relies on fixed-width behaviour.  Code that can panic in Rust
(index out of bounds, checked arithmetic overflow in debug builds,
division by zero, the explicit panic on the Illegal opcode, unwrapped
parse results) is modelled as returning Option, with none for the panic.
-/

namespace Halide

/-- Opcode tags, from the enum in src/vm/src/lib.rs (mod opcode). -/
inductive Opcode
  | HLT
  | LOAD
  | ADD
  | SUB
  | MUL
  | DIV
  | JMP
  | JMPF
  | JMPB
  | EQ
  | NOT
  | GT
  | GTQ
  | IGL
  deriving DecidableEq

/-- The discriminant values of the opcode enum (impl From<Opcode> for u8). -/
def Opcode.toByte : Opcode → Nat
  | .HLT => 0
  | .LOAD => 1
  | .ADD => 2
  | .SUB => 3
  | .MUL => 4
  | .DIV => 5
  | .JMP => 6
  | .JMPF => 7
  | .JMPB => 8
  | .EQ => 9
  | .NOT => 10
  | .GT => 11
  | .GTQ => 12
  | .IGL => 255

/-- impl From<u8> for Opcode in src/vm/src/lib.rs: a total decode, any
byte outside the defined range maps to IGL. -/
def Opcode.fromByte (v : Nat) : Opcode :=
  match v with
  | 0 => .HLT
  | 1 => .LOAD
  | 2 => .ADD
  | 3 => .SUB
  | 4 => .MUL
  | 5 => .DIV
  | 6 => .JMP
  | 7 => .JMPF
  | 8 => .JMPB
  | 9 => .EQ
  | 10 => .NOT
  | 11 => .GT
  | 12 => .GTQ
  | _ => .IGL

/-- Instruction model of src/vm/src/lib.rs (mod opcode::instructions).
Registers are u8 (embedded as Nat), immediates i16 (embedded as Int). -/
inductive Instruction
  | Halt
  | Load (r : Nat) (v : Int)
  | Add (r1 r2 rd : Nat)
  | Subtract (r1 r2 rd : Nat)
  | Multiply (r1 r2 rd : Nat)
  | Divide (r1 r2 rd : Nat)
  | Jump (r : Nat)
  | JumpForward (r : Nat)
  | JumpBack (r : Nat)
  | Equal (r1 r2 : Nat)
  | Not
  | GreaterThan (r1 r2 : Nat)
  | GreaterThanEqual (r1 r2 : Nat)
  | Illegal
  deriving DecidableEq

/-- The 16-bit two's-complement bit pattern of an i16 value v: for v in
[-32768, 32767] this is the Nat whose 16 low bits are the bits of v. -/
def i16pat (v : Int) : Nat := (v % 65536).toNat

/-- to_le_bytes of src/vm/src/lib.rs:
first = ((v & 0xFF00u16 as i16) >> 8) as u8, second = (v & 0x00FF) as u8.
On the 16-bit pattern w of v the i16 mask, arithmetic shift and u8
truncation compute exactly (w &&& 0xFF00) >>> 8 and w &&& 0x00FF. -/
def to_le_bytes (v : Int) : Nat × Nat :=
  let w := i16pat v
  ((w &&& 0xFF00) >>> 8, w &&& 0x00FF)

/-- to_le_bytes of src/opcodes/src/lib.rs (divergent snapshot):
first = (v >> 8) as u8, second = (v & 0x0F) as u8.  The low byte is
masked with 0x0F, not 0xFF. -/
def to_le_bytes_opcodes (v : Int) : Nat × Nat :=
  let w := i16pat v
  ((w >>> 8) &&& 0xFF, w &&& 0x0F)

/-- Instruction::to_bytes of src/vm/src/lib.rs: byte 0 is the opcode,
then the operand bytes; Load carries the immediate as high byte then low
byte. -/
def Instruction.to_bytes : Instruction → List Nat
  | .Halt => [Opcode.HLT.toByte]
  | .Load r v => [Opcode.LOAD.toByte, r, (to_le_bytes v).1, (to_le_bytes v).2]
  | .Add r1 r2 dr => [Opcode.ADD.toByte, r1, r2, dr]
  | .Subtract r1 r2 dr => [Opcode.SUB.toByte, r1, r2, dr]
  | .Multiply r1 r2 dr => [Opcode.MUL.toByte, r1, r2, dr]
  | .Divide r1 r2 dr => [Opcode.DIV.toByte, r1, r2, dr]
  | .Jump r1 => [Opcode.JMP.toByte, r1]
  | .JumpBack r1 => [Opcode.JMPB.toByte, r1]
  | .JumpForward r1 => [Opcode.JMPF.toByte, r1]
  | .Equal r1 r2 => [Opcode.EQ.toByte, r1, r2]
  | .Not => [Opcode.NOT.toByte]
  | .GreaterThan r1 r2 => [Opcode.GT.toByte, r1, r2]
  | .GreaterThanEqual r1 r2 => [Opcode.GTQ.toByte, r1, r2]
  | .Illegal => [Opcode.IGL.toByte]

/-- Instruction::to_bytes of src/opcodes/src/lib.rs: identical layout and
opcode numbering, but it calls the opcodes crate's to_le_bytes. -/
def to_bytes_opcodes : Instruction → List Nat
  | .Halt => [Opcode.HLT.toByte]
  | .Load r v => [Opcode.LOAD.toByte, r, (to_le_bytes_opcodes v).1, (to_le_bytes_opcodes v).2]
  | .Add r1 r2 dr => [Opcode.ADD.toByte, r1, r2, dr]
  | .Subtract r1 r2 dr => [Opcode.SUB.toByte, r1, r2, dr]
  | .Multiply r1 r2 dr => [Opcode.MUL.toByte, r1, r2, dr]
  | .Divide r1 r2 dr => [Opcode.DIV.toByte, r1, r2, dr]
  | .Jump r1 => [Opcode.JMP.toByte, r1]
  | .JumpBack r1 => [Opcode.JMPB.toByte, r1]
  | .JumpForward r1 => [Opcode.JMPF.toByte, r1]
  | .Equal r1 r2 => [Opcode.EQ.toByte, r1, r2]
  | .Not => [Opcode.NOT.toByte]
  | .GreaterThan r1 r2 => [Opcode.GT.toByte, r1, r2]
  | .GreaterThanEqual r1 r2 => [Opcode.GTQ.toByte, r1, r2]
  | .Illegal => [Opcode.IGL.toByte]

/-- VM state of src/vm/src/lib.rs: registers: [i32; 32], pc: usize,
program: Vec<u8>, remainder: u32, cmp: bool. -/
structure VM where
  registers : List Int
  pc : Nat
  program : List Nat
  remainder : Nat
  cmp : Bool
  deriving DecidableEq

/-- VM::with_program / VM::default: zeroed 32-slot register file, pc 0,
remainder 0, cmp false. -/
def VM.withProgram (p : List Nat) : VM :=
  { registers := List.replicate 32 0, pc := 0, program := p, remainder := 0, cmp := false }

/-- VM::next_byte: read program[pc] (panic if out of bounds) and advance
pc by one. -/
def VM.nextByte (vm : VM) : Option (Nat × VM) :=
  match vm.program.get? vm.pc with
  | some byte => some (byte, { vm with pc := vm.pc + 1 })
  | none => none

/-- VM::next_value: two fetched bytes combined big-endian as a u16, then
cast to i32.  The u16 to i32 cast zero-extends, so the result is the
plain Nat value of the two bytes. -/
def VM.nextValue (vm : VM) : Option (Int × VM) :=
  match vm.nextByte with
  | some (hi, vm1) =>
    match vm1.nextByte with
    | some (lo, vm2) => some (((hi <<< 8) ||| lo : Nat), vm2)
    | none => none
  | none => none

/-- The 32-bit signed range check: Rust debug builds panic when i32
arithmetic overflows, modelled as none. -/
def i32chk (x : Int) : Option Int :=
  if -2147483648 ≤ x ∧ x < 2147483648 then some x else none

/-- Register read self.registers[i]: panics (none) when i is out of
bounds. -/
def regGet (vm : VM) (i : Nat) : Option Int := vm.registers.get? i

/-- Register write self.registers[i] = x: panics (none) when i is out of
bounds. -/
def regSet (vm : VM) (i : Nat) (x : Int) : Option VM :=
  if i < vm.registers.length then some { vm with registers := vm.registers.set i x } else none

/-- An i32 value cast with target as usize: the 64-bit two's-complement
reinterpretation. -/
def usizeOfI32 (x : Int) : Nat := (x % 18446744073709551616).toNat

/-- usize addition, which panics on overflow in debug builds. -/
def usizeAdd (a b : Nat) : Option Nat :=
  if a + b < 18446744073709551616 then some (a + b) else none

/-- usize subtraction, which panics on underflow in debug builds. -/
def usizeSub (a b : Nat) : Option Nat :=
  if b ≤ a then some (a - b) else none

/-- An i32 value cast with as u32 (for the remainder field). -/
def u32OfI32 (x : Int) : Nat := (x % 4294967296).toNat

/-- VM::execute_once of src/vm/src/lib.rs.  Returns (state, done): done
is the bool the source returns (true stops run()).  none models a panic:
register index out of bounds, i32 overflow, division by zero, pc
underflow/overflow on the relative jumps, or the explicit panic on an
illegal opcode.  The eprintln on HLT is an I/O side effect with no state
content and is dropped. -/
def VM.executeOnce (vm : VM) : Option (VM × Bool) :=
  if vm.program.length ≤ vm.pc then some (vm, true)
  else
    match vm.nextByte with
    | none => none
    | some (op, vm) =>
      match Opcode.fromByte op with
      | .JMP =>
        match vm.nextByte with
        | none => none
        | some (r, vm) =>
          match regGet vm r with
          | none => none
          | some target => some ({ vm with pc := usizeOfI32 target }, false)
      | .JMPF =>
        match vm.nextByte with
        | none => none
        | some (r, vm) =>
          match regGet vm r with
          | none => none
          | some target =>
            match usizeAdd vm.pc (usizeOfI32 target) with
            | none => none
            | some pcNew => some ({ vm with pc := pcNew }, false)
      | .JMPB =>
        match vm.nextByte with
        | none => none
        | some (r, vm) =>
          match regGet vm r with
          | none => none
          | some target =>
            match usizeSub vm.pc (usizeOfI32 target) with
            | none => none
            | some pcNew => some ({ vm with pc := pcNew }, false)
      | .LOAD =>
        match vm.nextByte with
        | none => none
        | some (dest, vm) =>
          match vm.nextValue with
          | none => none
          | some (val, vm) =>
            match regSet vm dest val with
            | none => none
            | some vm => some (vm, false)
      | .ADD =>
        match vm.nextByte with
        | none => none
        | some (r1, vm) =>
          match regGet vm r1 with
          | none => none
          | some rhs =>
            match vm.nextByte with
            | none => none
            | some (r2, vm) =>
              match regGet vm r2 with
              | none => none
              | some lhs =>
                match vm.nextByte with
                | none => none
                | some (dest, vm) =>
                  match i32chk (rhs + lhs) with
                  | none => none
                  | some x =>
                    match regSet vm dest x with
                    | none => none
                    | some vm => some (vm, false)
      | .SUB =>
        match vm.nextByte with
        | none => none
        | some (r1, vm) =>
          match regGet vm r1 with
          | none => none
          | some rhs =>
            match vm.nextByte with
            | none => none
            | some (r2, vm) =>
              match regGet vm r2 with
              | none => none
              | some lhs =>
                match vm.nextByte with
                | none => none
                | some (dest, vm) =>
                  match i32chk (rhs - lhs) with
                  | none => none
                  | some x =>
                    match regSet vm dest x with
                    | none => none
                    | some vm => some (vm, false)
      | .MUL =>
        match vm.nextByte with
        | none => none
        | some (r1, vm) =>
          match regGet vm r1 with
          | none => none
          | some rhs =>
            match vm.nextByte with
            | none => none
            | some (r2, vm) =>
              match regGet vm r2 with
              | none => none
              | some lhs =>
                match vm.nextByte with
                | none => none
                | some (dest, vm) =>
                  match i32chk (rhs * lhs) with
                  | none => none
                  | some x =>
                    match regSet vm dest x with
                    | none => none
                    | some vm => some (vm, false)
      | .DIV =>
        match vm.nextByte with
        | none => none
        | some (r1, vm) =>
          match regGet vm r1 with
          | none => none
          | some rhs =>
            match vm.nextByte with
            | none => none
            | some (r2, vm) =>
              match regGet vm r2 with
              | none => none
              | some lhs =>
                match vm.nextByte with
                | none => none
                | some (dest, vm) =>
                  if lhs = 0 then none
                  else
                    match i32chk (Int.tdiv rhs lhs) with
                    | none => none
                    | some q =>
                      match regSet vm dest q with
                      | none => none
                      | some vm =>
                        some ({ vm with remainder := u32OfI32 (Int.tmod rhs lhs) }, false)
      | .HLT => some (vm, true)
      | .IGL => none
      | .EQ =>
        match vm.nextByte with
        | none => none
        | some (r1, vm) =>
          match regGet vm r1 with
          | none => none
          | some rhs =>
            match vm.nextByte with
            | none => none
            | some (r2, vm) =>
              match regGet vm r2 with
              | none => none
              | some lhs => some ({ vm with cmp := decide (rhs = lhs) }, false)
      | .NOT => some ({ vm with cmp := !vm.cmp }, false)
      | .GT =>
        match vm.nextByte with
        | none => none
        | some (r1, vm) =>
          match regGet vm r1 with
          | none => none
          | some rhs =>
            match vm.nextByte with
            | none => none
            | some (r2, vm) =>
              match regGet vm r2 with
              | none => none
              | some lhs => some ({ vm with cmp := decide (lhs < rhs) }, false)
      | .GTQ =>
        match vm.nextByte with
        | none => none
        | some (r1, vm) =>
          match regGet vm r1 with
          | none => none
          | some rhs =>
            match vm.nextByte with
            | none => none
            | some (r2, vm) =>
              match regGet vm r2 with
              | none => none
              | some lhs => some ({ vm with cmp := decide (lhs ≤ rhs) }, false)

/-- VM::run: single-step until execute_once reports done.  The source
loop has no bound; the Nat argument is fuel, and none is returned when
the fuel runs out before the machine halts (or when a step panics). -/
def VM.runFuel : Nat → VM → Option VM
  | 0, _ => none
  | fuel + 1, vm =>
    match vm.executeOnce with
    | none => none
    | some (vm', true) => some vm'
    | some (vm', false) => VM.runFuel fuel vm'

/-- Decoding one instruction from a byte sequence with the VM's fetch
logic: decode_opcode fetches and classifies the opcode byte, then the
operand bytes are fetched exactly as the corresponding execute_once
branch fetches them (next_byte for registers, next_value for the Load
immediate); the byte sequence must be exactly consumed. -/
def decodeInstruction (bytes : List Nat) : Option Instruction :=
  let vm0 := VM.withProgram bytes
  match vm0.nextByte with
  | none => none
  | some (op, vm1) =>
    let fin := fun (vm : VM) (i : Instruction) =>
      if vm.program.length ≤ vm.pc then some i else none
    match Opcode.fromByte op with
    | .HLT => fin vm1 .Halt
    | .LOAD =>
      match vm1.nextByte with
      | none => none
      | some (r, vm2) =>
        match vm2.nextValue with
        | none => none
        | some (v, vm3) => fin vm3 (.Load r v)
    | .ADD =>
      match vm1.nextByte with
      | none => none
      | some (r1, vm2) =>
        match vm2.nextByte with
        | none => none
        | some (r2, vm3) =>
          match vm3.nextByte with
          | none => none
          | some (rd, vm4) => fin vm4 (.Add r1 r2 rd)
    | .SUB =>
      match vm1.nextByte with
      | none => none
      | some (r1, vm2) =>
        match vm2.nextByte with
        | none => none
        | some (r2, vm3) =>
          match vm3.nextByte with
          | none => none
          | some (rd, vm4) => fin vm4 (.Subtract r1 r2 rd)
    | .MUL =>
      match vm1.nextByte with
      | none => none
      | some (r1, vm2) =>
        match vm2.nextByte with
        | none => none
        | some (r2, vm3) =>
          match vm3.nextByte with
          | none => none
          | some (rd, vm4) => fin vm4 (.Multiply r1 r2 rd)
    | .DIV =>
      match vm1.nextByte with
      | none => none
      | some (r1, vm2) =>
        match vm2.nextByte with
        | none => none
        | some (r2, vm3) =>
          match vm3.nextByte with
          | none => none
          | some (rd, vm4) => fin vm4 (.Divide r1 r2 rd)
    | .JMP =>
      match vm1.nextByte with
      | none => none
      | some (r, vm2) => fin vm2 (.Jump r)
    | .JMPF =>
      match vm1.nextByte with
      | none => none
      | some (r, vm2) => fin vm2 (.JumpForward r)
    | .JMPB =>
      match vm1.nextByte with
      | none => none
      | some (r, vm2) => fin vm2 (.JumpBack r)
    | .EQ =>
      match vm1.nextByte with
      | none => none
      | some (r1, vm2) =>
        match vm2.nextByte with
        | none => none
        | some (r2, vm3) => fin vm3 (.Equal r1 r2)
    | .NOT => fin vm1 .Not
    | .GT =>
      match vm1.nextByte with
      | none => none
      | some (r1, vm2) =>
        match vm2.nextByte with
        | none => none
        | some (r2, vm3) => fin vm3 (.GreaterThan r1 r2)
    | .GTQ =>
      match vm1.nextByte with
      | none => none
      | some (r1, vm2) =>
        match vm2.nextByte with
        | none => none
        | some (r2, vm3) => fin vm3 (.GreaterThanEqual r1 r2)
    | .IGL => fin vm1 .Illegal

/-- The instructions constructible by the assembler grammar: every
register operand is parsed by from_str::<u8> (so at most 255), the Load
immediate is parsed by from_str::<i16> from an unsigned digit string (so
in [0, 32767]), and no assembly line produces Illegal. -/
def constructible : Instruction → Bool
  | .Halt => true
  | .Load r v => r ≤ 255 && 0 ≤ v && v ≤ 32767
  | .Add r1 r2 rd => r1 ≤ 255 && r2 ≤ 255 && rd ≤ 255
  | .Subtract r1 r2 rd => r1 ≤ 255 && r2 ≤ 255 && rd ≤ 255
  | .Multiply r1 r2 rd => r1 ≤ 255 && r2 ≤ 255 && rd ≤ 255
  | .Divide r1 r2 rd => r1 ≤ 255 && r2 ≤ 255 && rd ≤ 255
  | .Jump r => r ≤ 255
  | .JumpForward r => r ≤ 255
  | .JumpBack r => r ≤ 255
  | .Equal r1 r2 => r1 ≤ 255 && r2 ≤ 255
  | .Not => true
  | .GreaterThan r1 r2 => r1 ≤ 255 && r2 ≤ 255
  | .GreaterThanEqual r1 r2 => r1 ≤ 255 && r2 ≤ 255
  | .Illegal => false

/-!
Parser model.  The chumsky combinators used by the source are PEG-style:
each parser consumes a prefix of the input and either succeeds with a
value and the rest, or fails; choice tries alternatives in order with
backtracking.  A parser is embedded as List Char → Option (value × rest).
unwrapped() on a failed from_str conversion panics; that panic is folded
into parse failure (none) here.
-/

/-- The type of a parser over characters. -/
abbrev P (α : Type) := List Char → Option (α × List Char)

/-- just(s): match the literal string s. -/
def pJust (s : List Char) : P Unit := fun input =>
  if s.isPrefixOf input then some ((), input.drop s.length) else none

/-- text::digits(10): one or more ASCII digits, greedy. -/
def pDigits : P (List Char) := fun input =>
  let ds := input.takeWhile (fun c => c.isDigit)
  if ds.isEmpty then none else some (ds, input.drop ds.length)

/-- The numeric value of a digit string. -/
def digitsToNat (ds : List Char) : Nat :=
  ds.foldl (fun a c => a * 10 + (c.toNat - 48)) 0

/-- p.map(f). -/
def pMap (p : P α) (f : α → β) : P β := fun input =>
  match p input with
  | some (a, rest) => some (f a, rest)
  | none => none

/-- p.then(q). -/
def pThen (p : P α) (q : P β) : P (α × β) := fun input =>
  match p input with
  | some (a, rest) =>
    match q rest with
    | some (b, rest2) => some ((a, b), rest2)
    | none => none
  | none => none

/-- p.ignore_then(q). -/
def pIgnoreThen (p : P α) (q : P β) : P β := pMap (pThen p q) (fun x => x.2)

/-- p.then_ignore(q). -/
def pThenIgnore (p : P α) (q : P β) : P α := pMap (pThen p q) (fun x => x.1)

/-- p.or(q): ordered choice with backtracking. -/
def pOr (p q : P α) : P α := fun input =>
  match p input with
  | some r => some r
  | none => q input

/-- choice((p1, ..., pn)): ordered choice over a list. -/
def pChoice (ps : List (P α)) : P α := fun input =>
  match ps with
  | [] => none
  | p :: rest => pOr p (pChoice rest) input

/-- p.or_not(). -/
def pOrNot (p : P α) : P (Option α) := fun input =>
  match p input with
  | some (a, rest) => some (some a, rest)
  | none => some (none, input)

/-- Leading whitespace removal, as the padding side of padded(). -/
def skipWs (input : List Char) : List Char :=
  input.dropWhile (fun c => c.isWhitespace)

/-- p.padded(): ignore whitespace before and after p. -/
def pPadded (p : P α) : P α := fun input =>
  match p (skipWs input) with
  | some (a, rest) => some (a, skipWs rest)
  | none => none

/-- p.repeated(): zero or more, greedy.  The Nat is fuel; every item of
the source grammar consumes at least one character, so any fuel of at
least the input length is exact. -/
def pManyN (p : P α) : Nat → P (List α)
  | 0 => fun input => some ([], input)
  | fuel + 1 => fun input =>
    match p input with
    | none => some ([], input)
    | some (a, rest) =>
      match pManyN p fuel rest with
      | some (as_, rest2) => some (a :: as_, rest2)
      | none => some ([a], rest)

/-- The register operand parser of parsing::assemble:
just(" $").ignore_then(digits(10).from_str::<u8>().unwrapped()). -/
def pRegister : P Nat := fun input =>
  match pIgnoreThen (pJust [' ', '$']) pDigits input with
  | some (ds, rest) =>
    let n := digitsToNat ds
    if n ≤ 255 then some (n, rest) else none
  | none => none

/-- The immediate operand parser of parsing::assemble in
src/vm/src/lib.rs and src/assembler/src/lib.rs:
just(" #").ignore_then(digits(10).from_str::<i16>().unwrapped()).
The digit parser admits no sign. -/
def pValue : P Int := fun input =>
  match pIgnoreThen (pJust [' ', '#']) pDigits input with
  | some (ds, rest) =>
    let n := digitsToNat ds
    if n ≤ 32767 then some ((n : Int), rest) else none
  | none => none

/-- The immediate operand parser of the src/vm/src/parsing.rs snapshot,
which differs by accepting an optional leading minus:
just(" #").ignore_then(just('-').or_not().then(digits ...).foldr(neg)). -/
def pValueSigned : P Int := fun input =>
  match pIgnoreThen (pJust [' ', '#']) (pThen (pOrNot (pJust ['-'])) pDigits) input with
  | some ((sign, ds), rest) =>
    let n := digitsToNat ds
    if n ≤ 32767 then
      match sign with
      | some _ => some (-(n : Int), rest)
      | none => some ((n : Int), rest)
    else none
  | none => none

/-- The thirteen per-mnemonic alternatives of parsing::assemble, in the
order they appear in the choice tuple of the source. -/
def opAlternatives : List (P Instruction) :=
  [ pMap (pJust "HLT".toList) (fun _ => Instruction.Halt)
  , pMap (pJust "NOT".toList) (fun _ => Instruction.Not)
  , pMap (pIgnoreThen (pJust "JMP".toList) pRegister) Instruction.Jump
  , pMap (pIgnoreThen (pJust "JMPF".toList) pRegister) Instruction.JumpForward
  , pMap (pIgnoreThen (pJust "JMPB".toList) pRegister) Instruction.JumpBack
  , pMap (pThen (pThen (pIgnoreThen (pJust "ADD".toList) pRegister) pRegister) pRegister)
      (fun x => Instruction.Add x.1.1 x.1.2 x.2)
  , pMap (pThen (pThen (pIgnoreThen (pJust "SUB".toList) pRegister) pRegister) pRegister)
      (fun x => Instruction.Subtract x.1.1 x.1.2 x.2)
  , pMap (pThen (pThen (pIgnoreThen (pJust "MUL".toList) pRegister) pRegister) pRegister)
      (fun x => Instruction.Multiply x.1.1 x.1.2 x.2)
  , pMap (pThen (pThen (pIgnoreThen (pJust "DIV".toList) pRegister) pRegister) pRegister)
      (fun x => Instruction.Divide x.1.1 x.1.2 x.2)
  , pMap (pThen (pIgnoreThen (pJust "EQ".toList) pRegister) pRegister)
      (fun x => Instruction.Equal x.1 x.2)
  , pMap (pThen (pIgnoreThen (pJust "GT".toList) pRegister) pRegister)
      (fun x => Instruction.GreaterThan x.1 x.2)
  , pMap (pThen (pIgnoreThen (pJust "GTQ".toList) pRegister) pRegister)
      (fun x => Instruction.GreaterThanEqual x.1 x.2)
  , pMap (pThen (pIgnoreThen (pJust "LOAD".toList) pRegister) pValue)
      (fun x => Instruction.Load x.1 x.2)
  ]

/-- One line of the assembly grammar: the choice over the mnemonics,
then an optional newline (choice(...).then_ignore(just('\n').or_not())). -/
def opcodeLine : P Instruction :=
  pThenIgnore (pChoice opAlternatives) (pOrNot (pJust ['\n']))

/-- parsing::assemble followed by Parser::parse, which requires the whole
input to be consumed: opcodes.padded().repeated() to end of input. -/
def assembleText (s : String) : Option (List Instruction) :=
  let cs := s.toList
  match pManyN (pPadded opcodeLine) (cs.length + 1) cs with
  | some (l, rest) => if rest.isEmpty then some l else none
  | none => none

/-!
Expression compiler (src/compiler crate).  Its instruction type is the
Instr enum of src/vm/src/opcode.rs, which additionally has Power.
-/

/-- The expression AST of src/compiler/src/lib.rs. -/
inductive Expr
  | Int (x : Int)
  | Negate (e : Expr)
  | Add (a b : Expr)
  | Sub (a b : Expr)
  | Mul (a b : Expr)
  | Div (a b : Expr)
  | Pow (a b : Expr)
  deriving DecidableEq

/-- The Instr enum of src/vm/src/opcode.rs (the instruction set the
compiler targets; it includes Power). -/
inductive Instr
  | Halt
  | Load (r : Nat) (v : Int)
  | Add (r1 r2 rd : Nat)
  | Subtract (r1 r2 rd : Nat)
  | Multiply (r1 r2 rd : Nat)
  | Divide (r1 r2 rd : Nat)
  | Power (r1 r2 rd : Nat)
  | Jump (r : Nat)
  | JumpForward (r : Nat)
  | JumpBack (r : Nat)
  | Equal (r1 r2 : Nat)
  | Not
  | GreaterThan (r1 r2 : Nat)
  | GreaterThanEqual (r1 r2 : Nat)
  | Illegal
  deriving DecidableEq

/-- u8 addition as used for next_register + 1: the register allocator's
counter is a u8, and overflow panics in debug builds (none). -/
def u8add (a b : Nat) : Option Nat :=
  if a + b ≤ 255 then some (a + b) else none

/-- compile_expr of src/compiler/src/lib.rs: the linear register
allocator.  A leaf loads into next_register; Negate lowers its operand
then multiplies by a -1 loaded one register higher; every binary
operator lowers the left child at next_register, the right child at
next_register + 1, and overwrites the left child's register. -/
def compile_expr : Expr → Nat → Option (List Instr)
  | .Int x, next => some [.Load next x]
  | .Negate e, next =>
    match compile_expr e next with
    | none => none
    | some l =>
      match u8add next 1 with
      | none => none
      | some n1 => some (l ++ [.Load n1 (-1), .Multiply next n1 next])
  | .Add a b, next =>
    match compile_expr a next with
    | none => none
    | some la =>
      match u8add next 1 with
      | none => none
      | some n1 =>
        match compile_expr b n1 with
        | none => none
        | some lb => some (la ++ lb ++ [.Add (n1 - 1) n1 (n1 - 1)])
  | .Sub a b, next =>
    match compile_expr a next with
    | none => none
    | some la =>
      match u8add next 1 with
      | none => none
      | some n1 =>
        match compile_expr b n1 with
        | none => none
        | some lb => some (la ++ lb ++ [.Subtract (n1 - 1) n1 (n1 - 1)])
  | .Mul a b, next =>
    match compile_expr a next with
    | none => none
    | some la =>
      match u8add next 1 with
      | none => none
      | some n1 =>
        match compile_expr b n1 with
        | none => none
        | some lb => some (la ++ lb ++ [.Multiply (n1 - 1) n1 (n1 - 1)])
  | .Div a b, next =>
    match compile_expr a next with
    | none => none
    | some la =>
      match u8add next 1 with
      | none => none
      | some n1 =>
        match compile_expr b n1 with
        | none => none
        | some lb => some (la ++ lb ++ [.Divide (n1 - 1) n1 (n1 - 1)])
  | .Pow a b, next =>
    match compile_expr a next with
    | none => none
    | some la =>
      match u8add next 1 with
      | none => none
      | some n1 =>
        match compile_expr b n1 with
        | none => none
        | some lb => some (la ++ lb ++ [.Power (n1 - 1) n1 (n1 - 1)])

/-- The register operands (sources and destination) of an Instr. -/
def Instr.regs : Instr → List Nat
  | .Halt => []
  | .Load r _ => [r]
  | .Add r1 r2 rd => [r1, r2, rd]
  | .Subtract r1 r2 rd => [r1, r2, rd]
  | .Multiply r1 r2 rd => [r1, r2, rd]
  | .Divide r1 r2 rd => [r1, r2, rd]
  | .Power r1 r2 rd => [r1, r2, rd]
  | .Jump r => [r]
  | .JumpForward r => [r]
  | .JumpBack r => [r]
  | .Equal r1 r2 => [r1, r2]
  | .Not => []
  | .GreaterThan r1 r2 => [r1, r2]
  | .GreaterThanEqual r1 r2 => [r1, r2]
  | .Illegal => []

/-- text::int(10).from_str::<i16>().unwrapped().map(Expr::Int): an
unsigned decimal integer with no leading zeros (chumsky text::int),
converted to i16 (panic above 32767 folded into failure). -/
def pIntLit : P Expr := fun input =>
  match pDigits input with
  | none => none
  | some (ds, rest) =>
    match ds with
    | '0' :: _ :: _ => none
    | _ =>
      let n := digitsToNat ds
      if n ≤ 32767 then some (.Int (n : Int), rest) else none

/-- one_of(c).to(f).padded(): a padded single-character operator. -/
def pOpChar (c : Char) (f : Expr → Expr → Expr) : P (Expr → Expr → Expr) :=
  pPadded (pMap (pJust [c]) (fun _ => f))

/-- The recursive expression parser expr() of src/compiler/src/parser.rs.
The Nat is fuel for the recursion through parentheses and for the
repetition loops; any fuel above the input length is exact.  Layers, low
to high precedence: sums (+ -), products (* /), exponents (^), unary
minus repetition, then an integer atom or a parenthesized expression. -/
def exprP : Nat → P Expr
  | 0 => fun _ => none
  | fuel + 1 => fun input =>
    let atom := pOr pIntLit
      (pThenIgnore (pIgnoreThen (pJust ['(']) (exprP fuel)) (pJust [')']))
    let negated := pMap (pThen (pManyN (pPadded (pJust ['-'])) (fuel + 1)) atom)
      (fun x => x.1.foldr (fun _ acc => Expr.Negate acc) x.2)
    let expo := pMap (pThen negated (pManyN (pThen (pOpChar '^' .Pow) negated) (fuel + 1)))
      (fun x => x.2.foldl (fun acc fr => fr.1 acc fr.2) x.1)
    let product := pMap
      (pThen expo (pManyN (pThen (pOr (pOpChar '*' .Mul) (pOpChar '/' .Div)) expo) (fuel + 1)))
      (fun x => x.2.foldl (fun acc fr => fr.1 acc fr.2) x.1)
    let sums := pMap
      (pThen product
        (pManyN (pThen (pOr (pOpChar '+' .Add) (pOpChar '-' .Sub)) product) (fuel + 1)))
      (fun x => x.2.foldl (fun acc fr => fr.1 acc fr.2) x.1)
    sums input

/-- expr().parse(s): parse a whole string as one expression (parse
requires end of input). -/
def parseExpr (s : String) : Option Expr :=
  let cs := s.toList
  match exprP (cs.length + 1) cs with
  | some (e, rest) => if rest.isEmpty then some e else none
  | none => none

/-!
Helper lemmas.
-/
theorem recombine (w : Nat) (hw : w < 65536) :
    (((w &&& 0xFF00) >>> 8) <<< 8) ||| (w &&& 0xFF) = w := by
  have h00 : (0xFF00 : Nat) = (2 ^ 8 - 1) <<< 8 := by decide
  have h0f : (0xFF : Nat) = 2 ^ 8 - 1 := by decide
  apply Nat.eq_of_testBit_eq
  intro i
  simp only [h00, h0f, Nat.testBit_or, Nat.testBit_shiftLeft, Nat.testBit_shiftRight,
    Nat.testBit_and, Nat.testBit_two_pow_sub_one]
  rcases Nat.lt_or_ge i 8 with h | h
  · simp [Nat.not_le.mpr h, h]
  · have he : 8 + (i - 8) = i := by omega
    simp only [he, Nat.le_refl, decide_eq_true_eq]
    rcases Nat.lt_or_ge i 16 with h16 | h16
    · have : i - 8 < 8 := by omega
      simp [h, this, Nat.not_lt.mpr h]
    · have hfw : w.testBit i = false := by
        apply Nat.testBit_lt_two_pow
        calc w < 65536 := hw
        _ ≤ 2 ^ i := by
          have : (65536 : Nat) = 2 ^ 16 := by decide
          rw [this]
          exact Nat.pow_le_pow_right (by omega) h16
      simp [hfw]

theorem i16pat_lt (v : Int) : i16pat v < 65536 := by
  unfold i16pat
  have h := Int.emod_lt_of_pos v (by norm_num : (0:Int) < 65536)
  omega

theorem i16pat_cast (v : Int) : ((i16pat v : Nat) : Int) = v % 65536 := by
  unfold i16pat
  have h := Int.emod_nonneg v (by norm_num : (65536:Int) ≠ 0)
  omega

theorem i16pat_of_nonneg (v : Int) (h1 : 0 ≤ v) (h2 : v < 65536) :
    ((i16pat v : Nat) : Int) = v := by
  rw [i16pat_cast v, Int.emod_eq_of_lt h1 h2]


theorem decode_load_bytes (r b1 b2 : Nat) :
    decodeInstruction [1, r, b1, b2] =
      some (.Load r (((b1 <<< 8) ||| b2 : Nat))) := rfl

theorem roundtrip_all (i : Instruction) (hc : constructible i = true) :
    decodeInstruction i.to_bytes = some i := by
  cases i with
  | Halt => rfl
  | Load r v =>
    simp only [constructible, Bool.and_eq_true, decide_eq_true_eq] at hc
    obtain ⟨⟨hr, hv0⟩, hv1⟩ := hc
    have hb : (Instruction.Load r v).to_bytes =
        [1, r, (i16pat v &&& 0xFF00) >>> 8, i16pat v &&& 0xFF] := rfl
    rw [hb, decode_load_bytes, recombine (i16pat v) (i16pat_lt v),
      i16pat_of_nonneg v hv0 (by omega)]
  | Add r1 r2 rd => rfl
  | Subtract r1 r2 rd => rfl
  | Multiply r1 r2 rd => rfl
  | Divide r1 r2 rd => rfl
  | Jump r => rfl
  | JumpForward r => rfl
  | JumpBack r => rfl
  | Equal r1 r2 => rfl
  | Not => rfl
  | GreaterThan r1 r2 => rfl
  | GreaterThanEqual r1 r2 => rfl
  | Illegal => simp [constructible] at hc

theorem load_exec (r b1 b2 : Nat) (hr : r < 32) :
    (VM.withProgram [1, r, b1, b2]).executeOnce =
      some ({ registers := (List.replicate 32 0).set r (((b1 <<< 8) ||| b2 : Nat) : Int),
              pc := 4, program := [1, r, b1, b2], remainder := 0, cmp := false }, false) := by
  simp [VM.executeOnce, VM.withProgram, VM.nextByte, VM.nextValue, regSet, Opcode.fromByte, hr]

theorem load_run (r : Nat) (v : Int) (hr : r < 32) (h1 : -32768 ≤ v) :
    ((VM.withProgram ((Instruction.Load r v).to_bytes)).runFuel 2).map
      (fun vm => vm.registers.get? r) = some (some (v % 65536)) := by
  have hb : (Instruction.Load r v).to_bytes =
      [1, r, (i16pat v &&& 0xFF00) >>> 8, i16pat v &&& 0xFF] := rfl
  rw [hb]
  unfold VM.runFuel
  rw [load_exec _ _ _ hr]
  simp only []
  unfold VM.runFuel
  simp only [VM.executeOnce]
  norm_num
  rw [recombine (i16pat v) (i16pat_lt v), i16pat_cast v]
  exact List.getElem?_set_self (by simpa using hr)

theorem get_some_not_exhausted (vm : VM) (b : Nat) (h : vm.program.get? vm.pc = some b) :
    ¬ vm.program.length ≤ vm.pc := by
  intro hle
  rw [List.get?_eq_none.mpr hle] at h
  cases h

theorem jmpf_exec (vm : VM) (p r : Nat) (v : Int) (h0 : vm.pc = p)
    (h1 : vm.program.get? p = some 7) (h2 : vm.program.get? (p + 1) = some r)
    (h3 : vm.registers.get? r = some v) (h4 : 0 ≤ v) (h5 : v < 2147483648)
    (h6 : p + 2 + v.toNat < 18446744073709551616) :
    vm.executeOnce = some ({ vm with pc := p + 2 + v.toNat }, false) := by
  subst h0
  have hne := get_some_not_exhausted vm 7 h1
  have hcast : usizeOfI32 v = v.toNat := by
    unfold usizeOfI32
    rw [Int.emod_eq_of_lt h4 (by omega)]
  simp only [VM.executeOnce, if_neg hne, VM.nextByte, h1, Opcode.fromByte, h2, regGet, h3,
    usizeAdd, hcast]
  have he : vm.pc + 1 + 1 + v.toNat = vm.pc + 2 + v.toNat := by omega
  rw [if_pos (show vm.pc + 1 + 1 + v.toNat < 18446744073709551616 by omega), he]

theorem exhausted_step (vm : VM) (h : vm.program.length ≤ vm.pc) :
    vm.executeOnce = some (vm, true) := by
  unfold VM.executeOnce
  rw [if_pos h]

theorem exhausted_run (vm : VM) (n : Nat) (h : vm.program.length ≤ vm.pc) :
    VM.runFuel (n + 1) vm = some vm := by
  unfold VM.runFuel
  rw [exhausted_step vm h]

theorem halt_step (vm : VM) (h : vm.program.get? vm.pc = some 0) :
    vm.executeOnce = some ({ vm with pc := vm.pc + 1 }, true) := by
  have hne := get_some_not_exhausted vm 0 h
  simp only [VM.executeOnce, if_neg hne, VM.nextByte, h, Opcode.fromByte]

theorem fromByte_igl (b : Nat) (h : 13 ≤ b) : Opcode.fromByte b = .IGL := by
  unfold Opcode.fromByte
  split
  all_goals first | rfl | omega

theorem igl_step (vm : VM) (b : Nat) (hb : 13 ≤ b)
    (h : vm.program.get? vm.pc = some b) : vm.executeOnce = none := by
  have hne := get_some_not_exhausted vm b h
  simp only [VM.executeOnce, if_neg hne, VM.nextByte, h, fromByte_igl b hb]

theorem nextByte_program (vm : VM) (b : Nat) (vmA : VM)
    (h : vm.nextByte = some (b, vmA)) : vmA.program = vm.program := by
  unfold VM.nextByte at h
  split at h
  · cases h; rfl
  · cases h

theorem nextValue_program (vm : VM) (v : Int) (vmA : VM)
    (h : vm.nextValue = some (v, vmA)) : vmA.program = vm.program := by
  unfold VM.nextValue at h
  cases h1 : vm.nextByte with
  | none => rw [h1] at h; cases h
  | some p1 =>
    obtain ⟨hi, vm1⟩ := p1
    rw [h1] at h
    simp only [] at h
    cases h2 : vm1.nextByte with
    | none => rw [h2] at h; cases h
    | some p2 =>
      obtain ⟨lo, vm2⟩ := p2
      rw [h2] at h
      simp only [] at h
      cases h
      exact (nextByte_program _ _ _ h2).trans (nextByte_program _ _ _ h1)

theorem regSet_program (vm : VM) (i : Nat) (x : Int) (vmA : VM)
    (h : regSet vm i x = some vmA) : vmA.program = vm.program := by
  unfold regSet at h
  split at h
  · cases h; rfl
  · cases h

theorem step_program (vm vm2 : VM) (d : Bool) (h : vm.executeOnce = some (vm2, d)) :
    vm2.program = vm.program := by
  unfold VM.executeOnce at h
  split at h
  · cases h; rfl
  · cases hnb : vm.nextByte with
    | none => rw [hnb] at h; cases h
    | some p =>
      obtain ⟨op, vmA⟩ := p
      rw [hnb] at h
      simp only [] at h
      have hA := nextByte_program _ _ _ hnb
      cases hop : Opcode.fromByte op with
      | HLT =>
        rw [hop] at h
        simp only [] at h
        cases h
        exact hA
      | IGL =>
        rw [hop] at h
        simp only [] at h
        cases h
      | NOT =>
        rw [hop] at h
        simp only [] at h
        cases h
        exact hA
      | JMP =>
        rw [hop] at h
        simp only [] at h
        cases hb2 : vmA.nextByte with
        | none => rw [hb2] at h; cases h
        | some p2 =>
          obtain ⟨r, vmB⟩ := p2
          rw [hb2] at h
          simp only [] at h
          cases hr : regGet vmB r with
          | none => rw [hr] at h; cases h
          | some target =>
            rw [hr] at h
            simp only [] at h
            cases h
            exact (nextByte_program _ _ _ hb2).trans hA
      | JMPF =>
        rw [hop] at h
        simp only [] at h
        cases hb2 : vmA.nextByte with
        | none => rw [hb2] at h; cases h
        | some p2 =>
          obtain ⟨r, vmB⟩ := p2
          rw [hb2] at h
          simp only [] at h
          cases hr : regGet vmB r with
          | none => rw [hr] at h; cases h
          | some target =>
            rw [hr] at h
            simp only [] at h
            cases hadd : usizeAdd vmB.pc (usizeOfI32 target) with
            | none => rw [hadd] at h; cases h
            | some pcNew =>
              rw [hadd] at h
              simp only [] at h
              cases h
              exact (nextByte_program _ _ _ hb2).trans hA
      | JMPB =>
        rw [hop] at h
        simp only [] at h
        cases hb2 : vmA.nextByte with
        | none => rw [hb2] at h; cases h
        | some p2 =>
          obtain ⟨r, vmB⟩ := p2
          rw [hb2] at h
          simp only [] at h
          cases hr : regGet vmB r with
          | none => rw [hr] at h; cases h
          | some target =>
            rw [hr] at h
            simp only [] at h
            cases hadd : usizeSub vmB.pc (usizeOfI32 target) with
            | none => rw [hadd] at h; cases h
            | some pcNew =>
              rw [hadd] at h
              simp only [] at h
              cases h
              exact (nextByte_program _ _ _ hb2).trans hA
      | LOAD =>
        rw [hop] at h
        simp only [] at h
        cases hb2 : vmA.nextByte with
        | none => rw [hb2] at h; cases h
        | some p2 =>
          obtain ⟨dest, vmB⟩ := p2
          rw [hb2] at h
          simp only [] at h
          cases hnv : vmB.nextValue with
          | none => rw [hnv] at h; cases h
          | some pv =>
            obtain ⟨val, vmC⟩ := pv
            rw [hnv] at h
            simp only [] at h
            cases hset : regSet vmC dest val with
            | none => rw [hset] at h; cases h
            | some vmD =>
              rw [hset] at h
              simp only [] at h
              cases h
              exact (regSet_program _ _ _ _ hset).trans
                ((nextValue_program _ _ _ hnv).trans
                  ((nextByte_program _ _ _ hb2).trans hA))
      | ADD =>
        rw [hop] at h
        simp only [] at h
        cases hb2 : vmA.nextByte with
        | none => rw [hb2] at h; cases h
        | some p2 =>
          obtain ⟨r1, vmB⟩ := p2
          rw [hb2] at h
          simp only [] at h
          cases hr1 : regGet vmB r1 with
          | none => rw [hr1] at h; cases h
          | some rhs =>
            rw [hr1] at h
            simp only [] at h
            cases hb3 : vmB.nextByte with
            | none => rw [hb3] at h; cases h
            | some p3 =>
              obtain ⟨r2, vmC⟩ := p3
              rw [hb3] at h
              simp only [] at h
              cases hr2 : regGet vmC r2 with
              | none => rw [hr2] at h; cases h
              | some lhs =>
                rw [hr2] at h
                simp only [] at h
                cases hb4 : vmC.nextByte with
                | none => rw [hb4] at h; cases h
                | some p4 =>
                  obtain ⟨dest, vmD⟩ := p4
                  rw [hb4] at h
                  simp only [] at h
                  cases hchk : i32chk (rhs + lhs) with
                  | none => rw [hchk] at h; cases h
                  | some x =>
                    rw [hchk] at h
                    simp only [] at h
                    cases hset : regSet vmD dest x with
                    | none => rw [hset] at h; cases h
                    | some vmE =>
                      rw [hset] at h
                      simp only [] at h
                      cases h
                      exact (regSet_program _ _ _ _ hset).trans
                        ((nextByte_program _ _ _ hb4).trans
                          ((nextByte_program _ _ _ hb3).trans
                            ((nextByte_program _ _ _ hb2).trans hA)))
      | SUB =>
        rw [hop] at h
        simp only [] at h
        cases hb2 : vmA.nextByte with
        | none => rw [hb2] at h; cases h
        | some p2 =>
          obtain ⟨r1, vmB⟩ := p2
          rw [hb2] at h
          simp only [] at h
          cases hr1 : regGet vmB r1 with
          | none => rw [hr1] at h; cases h
          | some rhs =>
            rw [hr1] at h
            simp only [] at h
            cases hb3 : vmB.nextByte with
            | none => rw [hb3] at h; cases h
            | some p3 =>
              obtain ⟨r2, vmC⟩ := p3
              rw [hb3] at h
              simp only [] at h
              cases hr2 : regGet vmC r2 with
              | none => rw [hr2] at h; cases h
              | some lhs =>
                rw [hr2] at h
                simp only [] at h
                cases hb4 : vmC.nextByte with
                | none => rw [hb4] at h; cases h
                | some p4 =>
                  obtain ⟨dest, vmD⟩ := p4
                  rw [hb4] at h
                  simp only [] at h
                  cases hchk : i32chk (rhs - lhs) with
                  | none => rw [hchk] at h; cases h
                  | some x =>
                    rw [hchk] at h
                    simp only [] at h
                    cases hset : regSet vmD dest x with
                    | none => rw [hset] at h; cases h
                    | some vmE =>
                      rw [hset] at h
                      simp only [] at h
                      cases h
                      exact (regSet_program _ _ _ _ hset).trans
                        ((nextByte_program _ _ _ hb4).trans
                          ((nextByte_program _ _ _ hb3).trans
                            ((nextByte_program _ _ _ hb2).trans hA)))
      | MUL =>
        rw [hop] at h
        simp only [] at h
        cases hb2 : vmA.nextByte with
        | none => rw [hb2] at h; cases h
        | some p2 =>
          obtain ⟨r1, vmB⟩ := p2
          rw [hb2] at h
          simp only [] at h
          cases hr1 : regGet vmB r1 with
          | none => rw [hr1] at h; cases h
          | some rhs =>
            rw [hr1] at h
            simp only [] at h
            cases hb3 : vmB.nextByte with
            | none => rw [hb3] at h; cases h
            | some p3 =>
              obtain ⟨r2, vmC⟩ := p3
              rw [hb3] at h
              simp only [] at h
              cases hr2 : regGet vmC r2 with
              | none => rw [hr2] at h; cases h
              | some lhs =>
                rw [hr2] at h
                simp only [] at h
                cases hb4 : vmC.nextByte with
                | none => rw [hb4] at h; cases h
                | some p4 =>
                  obtain ⟨dest, vmD⟩ := p4
                  rw [hb4] at h
                  simp only [] at h
                  cases hchk : i32chk (rhs * lhs) with
                  | none => rw [hchk] at h; cases h
                  | some x =>
                    rw [hchk] at h
                    simp only [] at h
                    cases hset : regSet vmD dest x with
                    | none => rw [hset] at h; cases h
                    | some vmE =>
                      rw [hset] at h
                      simp only [] at h
                      cases h
                      exact (regSet_program _ _ _ _ hset).trans
                        ((nextByte_program _ _ _ hb4).trans
                          ((nextByte_program _ _ _ hb3).trans
                            ((nextByte_program _ _ _ hb2).trans hA)))
      | DIV =>
        rw [hop] at h
        simp only [] at h
        cases hb2 : vmA.nextByte with
        | none => rw [hb2] at h; cases h
        | some p2 =>
          obtain ⟨r1, vmB⟩ := p2
          rw [hb2] at h
          simp only [] at h
          cases hr1 : regGet vmB r1 with
          | none => rw [hr1] at h; cases h
          | some rhs =>
            rw [hr1] at h
            simp only [] at h
            cases hb3 : vmB.nextByte with
            | none => rw [hb3] at h; cases h
            | some p3 =>
              obtain ⟨r2, vmC⟩ := p3
              rw [hb3] at h
              simp only [] at h
              cases hr2 : regGet vmC r2 with
              | none => rw [hr2] at h; cases h
              | some lhs =>
                rw [hr2] at h
                simp only [] at h
                cases hb4 : vmC.nextByte with
                | none => rw [hb4] at h; cases h
                | some p4 =>
                  obtain ⟨dest, vmD⟩ := p4
                  rw [hb4] at h
                  simp only [] at h
                  by_cases hz : lhs = 0
                  · rw [if_pos hz] at h; cases h
                  · rw [if_neg hz] at h
                    cases hchk : i32chk (Int.tdiv rhs lhs) with
                    | none => rw [hchk] at h; cases h
                    | some q =>
                      rw [hchk] at h
                      simp only [] at h
                      cases hset : regSet vmD dest q with
                      | none => rw [hset] at h; cases h
                      | some vmE =>
                        rw [hset] at h
                        simp only [] at h
                        cases h
                        exact (regSet_program _ _ _ _ hset).trans
                          ((nextByte_program _ _ _ hb4).trans
                            ((nextByte_program _ _ _ hb3).trans
                              ((nextByte_program _ _ _ hb2).trans hA)))
      | EQ =>
        rw [hop] at h
        simp only [] at h
        cases hb2 : vmA.nextByte with
        | none => rw [hb2] at h; cases h
        | some p2 =>
          obtain ⟨r1, vmB⟩ := p2
          rw [hb2] at h
          simp only [] at h
          cases hr1 : regGet vmB r1 with
          | none => rw [hr1] at h; cases h
          | some rhs =>
            rw [hr1] at h
            simp only [] at h
            cases hb3 : vmB.nextByte with
            | none => rw [hb3] at h; cases h
            | some p3 =>
              obtain ⟨r2, vmC⟩ := p3
              rw [hb3] at h
              simp only [] at h
              cases hr2 : regGet vmC r2 with
              | none => rw [hr2] at h; cases h
              | some lhs =>
                rw [hr2] at h
                simp only [] at h
                cases h
                exact (nextByte_program _ _ _ hb3).trans
                  ((nextByte_program _ _ _ hb2).trans hA)
      | GT =>
        rw [hop] at h
        simp only [] at h
        cases hb2 : vmA.nextByte with
        | none => rw [hb2] at h; cases h
        | some p2 =>
          obtain ⟨r1, vmB⟩ := p2
          rw [hb2] at h
          simp only [] at h
          cases hr1 : regGet vmB r1 with
          | none => rw [hr1] at h; cases h
          | some rhs =>
            rw [hr1] at h
            simp only [] at h
            cases hb3 : vmB.nextByte with
            | none => rw [hb3] at h; cases h
            | some p3 =>
              obtain ⟨r2, vmC⟩ := p3
              rw [hb3] at h
              simp only [] at h
              cases hr2 : regGet vmC r2 with
              | none => rw [hr2] at h; cases h
              | some lhs =>
                rw [hr2] at h
                simp only [] at h
                cases h
                exact (nextByte_program _ _ _ hb3).trans
                  ((nextByte_program _ _ _ hb2).trans hA)
      | GTQ =>
        rw [hop] at h
        simp only [] at h
        cases hb2 : vmA.nextByte with
        | none => rw [hb2] at h; cases h
        | some p2 =>
          obtain ⟨r1, vmB⟩ := p2
          rw [hb2] at h
          simp only [] at h
          cases hr1 : regGet vmB r1 with
          | none => rw [hr1] at h; cases h
          | some rhs =>
            rw [hr1] at h
            simp only [] at h
            cases hb3 : vmB.nextByte with
            | none => rw [hb3] at h; cases h
            | some p3 =>
              obtain ⟨r2, vmC⟩ := p3
              rw [hb3] at h
              simp only [] at h
              cases hr2 : regGet vmC r2 with
              | none => rw [hr2] at h; cases h
              | some lhs =>
                rw [hr2] at h
                simp only [] at h
                cases h
                exact (nextByte_program _ _ _ hb3).trans
                  ((nextByte_program _ _ _ hb2).trans hA)


theorem run_program (n : Nat) (vm vm2 : VM) (h : VM.runFuel n vm = some vm2) :
    vm2.program = vm.program := by
  induction n generalizing vm with
  | zero => cases h
  | succ n ih =>
    unfold VM.runFuel at h
    cases hs : vm.executeOnce with
    | none => rw [hs] at h; cases h
    | some r =>
      rw [hs] at h
      rcases r with ⟨vmMid, d⟩
      cases d with
      | true =>
        simp only [] at h
        cases h
        exact step_program vm vm2 true hs
      | false =>
        simp only [] at h
        exact (ih vmMid h).trans (step_program vm vmMid false hs)

theorem u8add_some (a b c : Nat) (h : u8add a b = some c) : c = a + b := by
  unfold u8add at h
  split at h
  · cases h; rfl
  · cases h

theorem binop_regs_ge (la lb : List Instr) (n n1 : Nat) (op : Instr)
    (hn1 : n1 = n + 1)
    (hla : ∀ inst ∈ la, ∀ r ∈ inst.regs, n ≤ r)
    (hlb : ∀ inst ∈ lb, ∀ r ∈ inst.regs, n1 ≤ r)
    (hop : ∀ r ∈ op.regs, n ≤ r) :
    ∀ inst ∈ la ++ lb ++ [op], ∀ r ∈ inst.regs, n ≤ r := by
  intro inst hmem r hr
  rcases List.mem_append.mp hmem with hm | hm
  · rcases List.mem_append.mp hm with hm2 | hm2
    · exact hla inst hm2 r hr
    · have := hlb inst hm2 r hr; omega
  · rw [List.mem_singleton] at hm
    subst hm
    exact hop r hr

theorem compile_regs_ge (e : Expr) (n : Nat) (l : List Instr)
    (h : compile_expr e n = some l) : ∀ inst ∈ l, ∀ r ∈ inst.regs, n ≤ r := by
  induction e generalizing n l with
  | Int x =>
    cases h
    intro inst hmem r hr
    rw [List.mem_singleton] at hmem
    subst hmem
    simp [Instr.regs] at hr
    omega
  | Negate e ih =>
    unfold compile_expr at h
    cases hc : compile_expr e n with
    | none => rw [hc] at h; cases h
    | some l0 =>
      rw [hc] at h
      simp only [] at h
      cases hu : u8add n 1 with
      | none => rw [hu] at h; cases h
      | some n1 =>
        rw [hu] at h
        simp only [] at h
        cases h
        have hn1 := u8add_some _ _ _ hu
        intro inst hmem r hr
        rcases List.mem_append.mp hmem with hm | hm
        · exact ih n l0 hc inst hm r hr
        · simp only [List.mem_cons, List.not_mem_nil, or_false] at hm
          rcases hm with rfl | rfl
          · simp [Instr.regs] at hr
            omega
          · simp [Instr.regs] at hr
            rcases hr with h1 | h1 | h1 <;> omega
  | Add a b iha ihb =>
    unfold compile_expr at h
    cases hca : compile_expr a n with
    | none => rw [hca] at h; cases h
    | some la =>
      rw [hca] at h
      simp only [] at h
      cases hu : u8add n 1 with
      | none => rw [hu] at h; cases h
      | some n1 =>
        rw [hu] at h
        simp only [] at h
        cases hcb : compile_expr b n1 with
        | none => rw [hcb] at h; cases h
        | some lb =>
          rw [hcb] at h
          simp only [] at h
          cases h
          have hn1 := u8add_some _ _ _ hu
          refine binop_regs_ge la lb n n1 _ hn1 (iha n la hca) (ihb n1 lb hcb) ?_
          intro r hr
          simp [Instr.regs] at hr
          rcases hr with h1 | h1 | h1 <;> omega
  | Sub a b iha ihb =>
    unfold compile_expr at h
    cases hca : compile_expr a n with
    | none => rw [hca] at h; cases h
    | some la =>
      rw [hca] at h
      simp only [] at h
      cases hu : u8add n 1 with
      | none => rw [hu] at h; cases h
      | some n1 =>
        rw [hu] at h
        simp only [] at h
        cases hcb : compile_expr b n1 with
        | none => rw [hcb] at h; cases h
        | some lb =>
          rw [hcb] at h
          simp only [] at h
          cases h
          have hn1 := u8add_some _ _ _ hu
          refine binop_regs_ge la lb n n1 _ hn1 (iha n la hca) (ihb n1 lb hcb) ?_
          intro r hr
          simp [Instr.regs] at hr
          rcases hr with h1 | h1 | h1 <;> omega
  | Mul a b iha ihb =>
    unfold compile_expr at h
    cases hca : compile_expr a n with
    | none => rw [hca] at h; cases h
    | some la =>
      rw [hca] at h
      simp only [] at h
      cases hu : u8add n 1 with
      | none => rw [hu] at h; cases h
      | some n1 =>
        rw [hu] at h
        simp only [] at h
        cases hcb : compile_expr b n1 with
        | none => rw [hcb] at h; cases h
        | some lb =>
          rw [hcb] at h
          simp only [] at h
          cases h
          have hn1 := u8add_some _ _ _ hu
          refine binop_regs_ge la lb n n1 _ hn1 (iha n la hca) (ihb n1 lb hcb) ?_
          intro r hr
          simp [Instr.regs] at hr
          rcases hr with h1 | h1 | h1 <;> omega
  | Div a b iha ihb =>
    unfold compile_expr at h
    cases hca : compile_expr a n with
    | none => rw [hca] at h; cases h
    | some la =>
      rw [hca] at h
      simp only [] at h
      cases hu : u8add n 1 with
      | none => rw [hu] at h; cases h
      | some n1 =>
        rw [hu] at h
        simp only [] at h
        cases hcb : compile_expr b n1 with
        | none => rw [hcb] at h; cases h
        | some lb =>
          rw [hcb] at h
          simp only [] at h
          cases h
          have hn1 := u8add_some _ _ _ hu
          refine binop_regs_ge la lb n n1 _ hn1 (iha n la hca) (ihb n1 lb hcb) ?_
          intro r hr
          simp [Instr.regs] at hr
          rcases hr with h1 | h1 | h1 <;> omega
  | Pow a b iha ihb =>
    unfold compile_expr at h
    cases hca : compile_expr a n with
    | none => rw [hca] at h; cases h
    | some la =>
      rw [hca] at h
      simp only [] at h
      cases hu : u8add n 1 with
      | none => rw [hu] at h; cases h
      | some n1 =>
        rw [hu] at h
        simp only [] at h
        cases hcb : compile_expr b n1 with
        | none => rw [hcb] at h; cases h
        | some lb =>
          rw [hcb] at h
          simp only [] at h
          cases h
          have hn1 := u8add_some _ _ _ hu
          refine binop_regs_ge la lb n n1 _ hn1 (iha n la hca) (ihb n1 lb hcb) ?_
          intro r hr
          simp [Instr.regs] at hr
          rcases hr with h1 | h1 | h1 <;> omega

theorem pMap_some (p : P α) (f : α → β) (input : List Char) (b : β) (rest : List Char)
    (h : pMap p f input = some (b, rest)) :
    ∃ a, p input = some (a, rest) ∧ b = f a := by
  unfold pMap at h
  cases hp : p input with
  | none => rw [hp] at h; cases h
  | some pr =>
    obtain ⟨a, r⟩ := pr
    rw [hp] at h
    simp only [] at h
    cases h
    exact ⟨a, rfl, rfl⟩

theorem pThen_some (p : P α) (q : P β) (input : List Char) (ab : α × β) (rest : List Char)
    (h : pThen p q input = some (ab, rest)) :
    ∃ r1, p input = some (ab.1, r1) ∧ q r1 = some (ab.2, rest) := by
  obtain ⟨a0, b0⟩ := ab
  unfold pThen at h
  cases hp : p input with
  | none => rw [hp] at h; cases h
  | some pr =>
    obtain ⟨a, r⟩ := pr
    rw [hp] at h
    simp only [] at h
    cases hq : q r with
    | none => rw [hq] at h; cases h
    | some qr =>
      obtain ⟨b, r2⟩ := qr
      rw [hq] at h
      simp only [] at h
      cases h
      exact ⟨r, rfl, hq⟩

theorem pIgnoreThen_some (p : P α) (q : P β) (input : List Char) (b : β) (rest : List Char)
    (h : pIgnoreThen p q input = some (b, rest)) :
    ∃ r1, q r1 = some (b, rest) := by
  unfold pIgnoreThen at h
  obtain ⟨ab, hab, hb⟩ := pMap_some _ _ _ _ _ h
  obtain ⟨r1, _, hq⟩ := pThen_some _ _ _ _ _ hab
  subst hb
  exact ⟨r1, hq⟩

theorem pRegister_bound (input : List Char) (n : Nat) (rest : List Char)
    (h : pRegister input = some (n, rest)) : n ≤ 255 := by
  unfold pRegister at h
  cases hp : pIgnoreThen (pJust [' ', '$']) pDigits input with
  | none => rw [hp] at h; cases h
  | some pr =>
    obtain ⟨ds, r⟩ := pr
    rw [hp] at h
    simp only [] at h
    split at h
    · cases h; assumption
    · cases h

theorem pValue_bound (input : List Char) (v : Int) (rest : List Char)
    (h : pValue input = some (v, rest)) : 0 ≤ v ∧ v ≤ 32767 := by
  unfold pValue at h
  cases hp : pIgnoreThen (pJust [' ', '#']) pDigits input with
  | none => rw [hp] at h; cases h
  | some pr =>
    obtain ⟨ds, r⟩ := pr
    rw [hp] at h
    simp only [] at h
    split at h
    · cases h
      constructor
      · exact Int.natCast_nonneg _
      · exact_mod_cast ‹digitsToNat ds ≤ 32767›
    · cases h

theorem pChoice_some (ps : List (P α)) (input : List Char) (a : α) (rest : List Char)
    (h : pChoice ps input = some (a, rest)) :
    ∃ p ∈ ps, p input = some (a, rest) := by
  induction ps with
  | nil => cases h
  | cons p rest2 ih =>
    unfold pChoice pOr at h
    cases hp : p input with
    | none =>
      rw [hp] at h
      simp only [] at h
      obtain ⟨q, hq, hqs⟩ := ih h
      exact ⟨q, List.mem_cons_of_mem _ hq, hqs⟩
    | some pr =>
      rw [hp] at h
      simp only [] at h
      cases h
      exact ⟨p, List.mem_cons_self _ _, hp⟩

theorem opAlternatives_constructible (p : P Instruction) (hp : p ∈ opAlternatives)
    (input : List Char) (i : Instruction) (rest : List Char)
    (h : p input = some (i, rest)) : constructible i = true := by
  simp only [opAlternatives, List.mem_cons, List.not_mem_nil, or_false] at hp
  rcases hp with rfl | rfl | rfl | rfl | rfl | rfl | rfl | rfl | rfl | rfl | rfl | rfl | rfl
  · obtain ⟨a, ha, rfl⟩ := pMap_some _ _ _ _ _ h
    rfl
  · obtain ⟨a, ha, rfl⟩ := pMap_some _ _ _ _ _ h
    rfl
  · obtain ⟨a, ha, rfl⟩ := pMap_some _ _ _ _ _ h
    obtain ⟨r1, hr⟩ := pIgnoreThen_some _ _ _ _ _ ha
    simp [constructible, pRegister_bound _ _ _ hr]
  · obtain ⟨a, ha, rfl⟩ := pMap_some _ _ _ _ _ h
    obtain ⟨r1, hr⟩ := pIgnoreThen_some _ _ _ _ _ ha
    simp [constructible, pRegister_bound _ _ _ hr]
  · obtain ⟨a, ha, rfl⟩ := pMap_some _ _ _ _ _ h
    obtain ⟨r1, hr⟩ := pIgnoreThen_some _ _ _ _ _ ha
    simp [constructible, pRegister_bound _ _ _ hr]
  · obtain ⟨a, ha, rfl⟩ := pMap_some _ _ _ _ _ h
    obtain ⟨r2, hr12, hr3⟩ := pThen_some _ _ _ _ _ ha
    obtain ⟨r1, hr1a, hr2a⟩ := pThen_some _ _ _ _ _ hr12
    obtain ⟨r0, hr0⟩ := pIgnoreThen_some _ _ _ _ _ hr1a
    simp [constructible, pRegister_bound _ _ _ hr0, pRegister_bound _ _ _ hr2a,
      pRegister_bound _ _ _ hr3]
  · obtain ⟨a, ha, rfl⟩ := pMap_some _ _ _ _ _ h
    obtain ⟨r2, hr12, hr3⟩ := pThen_some _ _ _ _ _ ha
    obtain ⟨r1, hr1a, hr2a⟩ := pThen_some _ _ _ _ _ hr12
    obtain ⟨r0, hr0⟩ := pIgnoreThen_some _ _ _ _ _ hr1a
    simp [constructible, pRegister_bound _ _ _ hr0, pRegister_bound _ _ _ hr2a,
      pRegister_bound _ _ _ hr3]
  · obtain ⟨a, ha, rfl⟩ := pMap_some _ _ _ _ _ h
    obtain ⟨r2, hr12, hr3⟩ := pThen_some _ _ _ _ _ ha
    obtain ⟨r1, hr1a, hr2a⟩ := pThen_some _ _ _ _ _ hr12
    obtain ⟨r0, hr0⟩ := pIgnoreThen_some _ _ _ _ _ hr1a
    simp [constructible, pRegister_bound _ _ _ hr0, pRegister_bound _ _ _ hr2a,
      pRegister_bound _ _ _ hr3]
  · obtain ⟨a, ha, rfl⟩ := pMap_some _ _ _ _ _ h
    obtain ⟨r2, hr12, hr3⟩ := pThen_some _ _ _ _ _ ha
    obtain ⟨r1, hr1a, hr2a⟩ := pThen_some _ _ _ _ _ hr12
    obtain ⟨r0, hr0⟩ := pIgnoreThen_some _ _ _ _ _ hr1a
    simp [constructible, pRegister_bound _ _ _ hr0, pRegister_bound _ _ _ hr2a,
      pRegister_bound _ _ _ hr3]
  · obtain ⟨a, ha, rfl⟩ := pMap_some _ _ _ _ _ h
    obtain ⟨r1, hr1a, hr2a⟩ := pThen_some _ _ _ _ _ ha
    obtain ⟨r0, hr0⟩ := pIgnoreThen_some _ _ _ _ _ hr1a
    simp [constructible, pRegister_bound _ _ _ hr0, pRegister_bound _ _ _ hr2a]
  · obtain ⟨a, ha, rfl⟩ := pMap_some _ _ _ _ _ h
    obtain ⟨r1, hr1a, hr2a⟩ := pThen_some _ _ _ _ _ ha
    obtain ⟨r0, hr0⟩ := pIgnoreThen_some _ _ _ _ _ hr1a
    simp [constructible, pRegister_bound _ _ _ hr0, pRegister_bound _ _ _ hr2a]
  · obtain ⟨a, ha, rfl⟩ := pMap_some _ _ _ _ _ h
    obtain ⟨r1, hr1a, hr2a⟩ := pThen_some _ _ _ _ _ ha
    obtain ⟨r0, hr0⟩ := pIgnoreThen_some _ _ _ _ _ hr1a
    simp [constructible, pRegister_bound _ _ _ hr0, pRegister_bound _ _ _ hr2a]
  · obtain ⟨a, ha, rfl⟩ := pMap_some _ _ _ _ _ h
    obtain ⟨r1, hr1a, hr2a⟩ := pThen_some _ _ _ _ _ ha
    obtain ⟨r0, hr0⟩ := pIgnoreThen_some _ _ _ _ _ hr1a
    obtain ⟨hv0, hv1⟩ := pValue_bound _ _ _ hr2a
    simp [constructible, pRegister_bound _ _ _ hr0, hv0, hv1]

theorem opcodeLine_constructible (input : List Char) (i : Instruction) (rest : List Char)
    (h : opcodeLine input = some (i, rest)) : constructible i = true := by
  unfold opcodeLine pThenIgnore at h
  obtain ⟨ab, hab, hb⟩ := pMap_some _ _ _ _ _ h
  obtain ⟨r1, hc, _⟩ := pThen_some _ _ _ _ _ hab
  subst hb
  obtain ⟨p, hp, hps⟩ := pChoice_some _ _ _ _ hc
  exact opAlternatives_constructible p hp _ _ _ hps

theorem pManyN_mem (p : P α) (fuel : Nat) (input : List Char) (l : List α) (rest : List Char)
    (h : pManyN p fuel input = some (l, rest)) :
    ∀ a ∈ l, ∃ i2 r2, p i2 = some (a, r2) := by
  induction fuel generalizing input l rest with
  | zero =>
    cases h
    intro a ha
    cases ha
  | succ fuel ih =>
    unfold pManyN at h
    cases hp : p input with
    | none =>
      rw [hp] at h
      cases h
      intro a ha
      cases ha
    | some pr =>
      obtain ⟨a0, r0⟩ := pr
      rw [hp] at h
      simp only [] at h
      cases hm : pManyN p fuel r0 with
      | none =>
        rw [hm] at h
        simp only [] at h
        cases h
        intro a ha
        rcases List.mem_singleton.mp ha with rfl
        exact ⟨input, _, hp⟩
      | some mr =>
        obtain ⟨as_, r2⟩ := mr
        rw [hm] at h
        simp only [] at h
        cases h
        intro a ha
        rcases List.mem_cons.mp ha with rfl | ha2
        · exact ⟨input, _, hp⟩
        · exact ih _ _ _ hm a ha2

theorem pPadded_some (p : P α) (input : List Char) (a : α) (rest : List Char)
    (h : pPadded p input = some (a, rest)) :
    ∃ i2 r2, p i2 = some (a, r2) := by
  unfold pPadded at h
  cases hp : p (skipWs input) with
  | none => rw [hp] at h; cases h
  | some pr =>
    obtain ⟨a2, r2⟩ := pr
    rw [hp] at h
    simp only [] at h
    cases h
    exact ⟨skipWs input, r2, hp⟩

theorem assemble_constructible (s : String) (l : List Instruction)
    (h : assembleText s = some l) : ∀ i ∈ l, constructible i = true := by
  unfold assembleText at h
  simp only [] at h
  cases hm : pManyN (pPadded opcodeLine) (s.toList.length + 1) s.toList with
  | none => rw [hm] at h; cases h
  | some mr =>
    obtain ⟨l2, rest⟩ := mr
    rw [hm] at h
    simp only [] at h
    split at h
    · cases h
      intro i hi
      obtain ⟨i2, r2, hp⟩ := pManyN_mem _ _ _ _ _ hm i hi
      obtain ⟨i3, r3, hline⟩ := pPadded_some _ _ _ _ hp
      exact opcodeLine_constructible _ _ _ hline
    · cases h

/-!
The claims.
-/

/-- C1: for every instruction constructible by the assembler grammar,
decoding (via the VM's fetch logic) the bytes produced by the vm crate's
Instruction::to_bytes yields the instruction back; but the opcodes
crate's to_bytes (whose to_le_bytes masks the low immediate byte with
0x0F instead of 0xFF) violates the round-trip law already at
Load(0, 16), which encodes to [1, 0, 0, 0] and decodes to Load(0, 0). -/
theorem C1_roundtrip_and_byte_split_bug :
    (∀ s l, assembleText s = some l → ∀ i ∈ l, decodeInstruction i.to_bytes = some i) ∧
    to_bytes_opcodes (Instruction.Load 0 16) = [1, 0, 0, 0] ∧
    decodeInstruction (to_bytes_opcodes (Instruction.Load 0 16)) =
      some (Instruction.Load 0 0) := by
  refine ⟨?_, by decide, by decide⟩
  intro s l h i hi
  exact roundtrip_all i (assemble_constructible s l h i hi)

/-- Witness for C1: the assembly line LOAD $0 #16 produces Load(0, 16),
and with the vm crate's encoder that instruction round-trips. -/
theorem C1_witness :
    assembleText "LOAD $0 #16" = some [Instruction.Load 0 16] ∧
    decodeInstruction ((Instruction.Load 0 16).to_bytes) = some (Instruction.Load 0 16) :=
  ⟨by decide,
    C1_roundtrip_and_byte_split_bug.1 "LOAD $0 #16" [Instruction.Load 0 16] (by decide)
      (Instruction.Load 0 16) (by decide)⟩

/-- C2 counterexample: executing Load(0, -1) on a fresh VM leaves
register 0 holding 65535, not -1: next_value zero-extends the 16-bit
immediate (u16 cast to i32), it does not sign-extend. -/
theorem C2_counterexample :
    ((VM.withProgram ((Instruction.Load 0 (-1)).to_bytes)).runFuel 2).map
      (fun vm => vm.registers.get? 0) = some (some 65535) ∧
    (65535 : Int) ≠ -1 := by
  exact ⟨by decide, by decide⟩

/-- C2 (amended): executing Load(r, v) stores the zero-extended 16-bit
value of v, i.e. v mod 2^16, into register r; nonnegative immediates are
preserved and negative immediates come out as v + 65536. -/
theorem C2_load_zero_extends (r : Nat) (v : Int) (hr : r < 32)
    (h1 : -32768 ≤ v) (h2 : v < 32768) :
    ((VM.withProgram ((Instruction.Load r v).to_bytes)).runFuel 2).map
      (fun vm => vm.registers.get? r) = some (some (v % 65536)) :=
  load_run r v hr h1

/-- Witness for C2: Load(3, -2) leaves register 3 holding 65534. -/
theorem C2_witness :
    ((VM.withProgram ((Instruction.Load 3 (-2)).to_bytes)).runFuel 2).map
      (fun vm => vm.registers.get? 3) = some (some 65534) := by
  have h := C2_load_zero_extends 3 (-2) (by norm_num) (by norm_num) (by norm_num)
  rw [show ((-2 : Int) % 65536) = 65534 from by norm_num] at h
  exact h

/-- C3: parsing the text 2 - (3 * 2) and lowering with next_register = 0
produces exactly Load(0,2), Load(1,3), Load(2,2), Multiply(1,2,1),
Subtract(0,1,0), in that order. -/
theorem C3_compile_sequence :
    (parseExpr "2 - (3 * 2)").bind (fun e => compile_expr e 0) =
      some [Instr.Load 0 2, Instr.Load 1 3, Instr.Load 2 2, Instr.Multiply 1 2 1,
        Instr.Subtract 0 1 0] := by
  decide

/-- C4: every register operand (source or destination) of every
instruction emitted by compile_expr(e, n) is at least n. -/
theorem C4_registers_ge_base (e : Expr) (n : Nat) (l : List Instr) (inst : Instr) (r : Nat)
    (h : compile_expr e n = some l) (hi : inst ∈ l) (hr : r ∈ inst.regs) : n ≤ r :=
  compile_regs_ge e n l h inst hi r hr

/-- Witness for C4: lowering 2 - (3 * 2) at base 5 emits
Multiply(6, 7, 6), whose operand 6 is at least 5. -/
theorem C4_witness :
    compile_expr (Expr.Sub (Expr.Int 2) (Expr.Mul (Expr.Int 3) (Expr.Int 2))) 5 =
      some [Instr.Load 5 2, Instr.Load 6 3, Instr.Load 7 2, Instr.Multiply 6 7 6,
        Instr.Subtract 5 6 5] ∧
    (5 : Nat) ≤ 6 :=
  ⟨by decide,
    C4_registers_ge_base (Expr.Sub (Expr.Int 2) (Expr.Mul (Expr.Int 3) (Expr.Int 2))) 5
      [Instr.Load 5 2, Instr.Load 6 3, Instr.Load 7 2, Instr.Multiply 6 7 6,
        Instr.Subtract 5 6 5]
      (Instr.Multiply 6 7 6) 6 (by decide) (by decide) (by decide)⟩

/-- C5 counterexample: with Load(0,4) at offset 0 and JumpForward(0) at
offset p = 4 (register 0 holding 4), two steps leave pc = 10, not
p + registers[0] = 8 as the claim predicts. -/
theorem C5_counterexample :
    (((VM.withProgram [1, 0, 0, 4, 7, 0]).executeOnce).bind
      (fun x => x.1.executeOnce)).map (fun x => x.1.pc) = some 10 ∧
    (10 : Nat) ≠ 4 + 4 := by
  exact ⟨by decide, by decide⟩

/-- C5 (amended): a JumpForward(r) whose opcode byte sits at offset p
sets pc to p + 2 + registers[r]: the register value is added after the
fetch has already advanced pc past the opcode and the operand byte. -/
theorem C5_jmpf_relative (vm : VM) (p r : Nat) (v : Int) (h0 : vm.pc = p)
    (h1 : vm.program.get? p = some 7) (h2 : vm.program.get? (p + 1) = some r)
    (h3 : vm.registers.get? r = some v) (h4 : 0 ≤ v) (h5 : v < 2147483648)
    (h6 : p + 2 + v.toNat < 18446744073709551616) :
    vm.executeOnce = some ({ vm with pc := p + 2 + v.toNat }, false) :=
  jmpf_exec vm p r v h0 h1 h2 h3 h4 h5 h6

/-- Witness for C5: in the state reached after Load(0,4), the
JumpForward(0) at offset 4 leaves pc = 10 = 4 + 2 + 4. -/
theorem C5_witness :
    ({ registers := (List.replicate 32 0).set 0 4, pc := 4, program := [1, 0, 0, 4, 7, 0],
       remainder := 0, cmp := false } : VM).executeOnce =
      some ({ registers := (List.replicate 32 0).set 0 4, pc := 10,
              program := [1, 0, 0, 4, 7, 0], remainder := 0, cmp := false }, false) := by
  have h := C5_jmpf_relative
    { registers := (List.replicate 32 0).set 0 4, pc := 4, program := [1, 0, 0, 4, 7, 0],
      remainder := 0, cmp := false } 4 0 4 rfl (by decide) (by decide) (by decide)
    (by decide) (by decide) (by decide)
  exact h

/-- C6 counterexample: the value parser of the cited assemblers
(src/assembler/src/lib.rs and the parsing module of src/vm/src/lib.rs)
admits only unsigned digit strings, so LOAD $2 #-1 fails to parse
instead of producing Load(2, -1). -/
theorem C6_counterexample :
    assembleText "LOAD $2 #-1" = none ∧
    ¬ assembleText "LOAD $2 #-1" = some [Instruction.Load 2 (-1)] := by
  exact ⟨by decide, by decide⟩

/-- C6 (amended): the cited assemblers accept only unsigned immediates
(LOAD $2 #1 yields Load(2,1); LOAD $2 #-1 fails); only the divergent
src/vm/src/parsing.rs snapshot's value parser accepts a leading minus,
reading " #-1" as -1. -/
theorem C6_unsigned_immediates :
    assembleText "LOAD $2 #1" = some [Instruction.Load 2 1] ∧
    assembleText "LOAD $2 #-1" = none ∧
    pValueSigned " #-1".toList = some (-1, []) := by
  exact ⟨by decide, by decide, by decide⟩

/-- C7: a step taken with pc at or past the end of the program reports
termination with the state fully unchanged, and run() then stops in that
state; an explicit Halt also reports termination, changing only pc
(registers, cmp and remainder untouched in both cases). -/
theorem C7_exhausted_halts_like_halt (vm vmH : VM) (n : Nat)
    (h : vm.program.length ≤ vm.pc) (hH : vmH.program.get? vmH.pc = some 0) :
    vm.executeOnce = some (vm, true) ∧
    VM.runFuel (n + 1) vm = some vm ∧
    vmH.executeOnce = some ({ vmH with pc := vmH.pc + 1 }, true) :=
  ⟨exhausted_step vm h, exhausted_run vm n h, halt_step vmH hH⟩

/-- Witness for C7: the empty program halts a fresh VM unchanged, and the
one-byte program [0] (HLT) halts advancing only pc. -/
theorem C7_witness :
    (VM.withProgram []).executeOnce = some (VM.withProgram [], true) ∧
    VM.runFuel 1 (VM.withProgram []) = some (VM.withProgram []) ∧
    (VM.withProgram [0]).executeOnce =
      some ({ VM.withProgram [0] with pc := (VM.withProgram [0]).pc + 1 }, true) :=
  C7_exhausted_halts_like_halt (VM.withProgram []) (VM.withProgram [0]) 0
    (by decide) (by decide)

/-- C8: every byte outside the defined opcode range 0..12 decodes to the
Illegal tag (decoding itself is a total function and cannot crash), and
executing a step whose fetched opcode byte is such a byte is fatal
(the engine panics rather than continuing). -/
theorem C8_illegal_decode_total_execute_fatal (b : Nat) (vm : VM) (hb : 13 ≤ b)
    (hvm : vm.program.get? vm.pc = some b) :
    Opcode.fromByte b = Opcode.IGL ∧ vm.executeOnce = none :=
  ⟨fromByte_igl b hb, igl_step vm b hb hvm⟩

/-- Witness for C8: byte 100 decodes to Illegal and executing it on the
one-byte program [100] is fatal. -/
theorem C8_witness :
    Opcode.fromByte 100 = Opcode.IGL ∧ (VM.withProgram [100]).executeOnce = none :=
  C8_illegal_decode_total_execute_fatal 100 (VM.withProgram [100]) (by decide) (by decide)

/-- C9: two runs of the same program, each from a freshly constructed
(default, zero-initialized) VM and with the same fuel, produce identical
final register contents and identical comparison-flag state. -/
theorem C9_deterministic (p : List Nat) (n : Nat) (v1 v2 : VM)
    (h1 : VM.runFuel n (VM.withProgram p) = some v1)
    (h2 : VM.runFuel n (VM.withProgram p) = some v2) :
    v1.registers = v2.registers ∧ v1.cmp = v2.cmp := by
  rw [h1] at h2
  cases h2
  exact ⟨rfl, rfl⟩

/-- Witness for C9: running the program [0] (HLT) twice from fresh VMs
gives the same registers and flag. -/
theorem C9_witness :
    ({ registers := List.replicate 32 0, pc := 1, program := [0], remainder := 0,
       cmp := false } : VM).registers =
      ({ registers := List.replicate 32 0, pc := 1, program := [0], remainder := 0,
         cmp := false } : VM).registers ∧
    ({ registers := List.replicate 32 0, pc := 1, program := [0], remainder := 0,
       cmp := false } : VM).cmp =
      ({ registers := List.replicate 32 0, pc := 1, program := [0], remainder := 0,
         cmp := false } : VM).cmp :=
  C9_deterministic [0] 1 _ _ (by decide) (by decide)

/-- C10: no execution step (and hence no run of any length) modifies the
program buffer: the program field of the resulting state is the program
field of the starting state. -/
theorem C10_program_immutable (vm vm2 : VM) (d : Bool) (n : Nat) (w w2 : VM)
    (h1 : vm.executeOnce = some (vm2, d)) (h2 : VM.runFuel n w = some w2) :
    vm2.program = vm.program ∧ w2.program = w.program :=
  ⟨step_program vm vm2 d h1, run_program n w w2 h2⟩

/-- Witness for C10: one step and one full run of the program [0] leave
the program buffer untouched. -/
theorem C10_witness :
    ({ registers := List.replicate 32 0, pc := 1, program := [0], remainder := 0,
       cmp := false } : VM).program = (VM.withProgram [0]).program ∧
    ({ registers := List.replicate 32 0, pc := 1, program := [0], remainder := 0,
       cmp := false } : VM).program = (VM.withProgram [0]).program :=
  C10_program_immutable (VM.withProgram [0])
    { registers := List.replicate 32 0, pc := 1, program := [0], remainder := 0,
      cmp := false } true 1 (VM.withProgram [0])
    { registers := List.replicate 32 0, pc := 1, program := [0], remainder := 0,
      cmp := false } (by decide) (by decide)

end Halide
